import Mathlib

/- Verification development for the HTML report ingestion pipeline:
   a shallow embedding of the table normalizer and CSV codec from
   html-to-csv.js, and of the sheet upsert engine from the
   sync-to-sheets script (latest variant), together with theorems
   settling the specification claims. -/

/- A report row is an ordered list of text cells. -/
abbrev Row := List String

/- Embedding of the JavaScript regex class backslash-s (used by trim and
   by the numeric-row regex), by character code: space, tab, line feed,
   carriage return, vertical tab, form feed, no-break space, byte order
   mark, line separator, paragraph separator. -/
def isJsWs (c : Char) : Bool :=
  c.toNat == 32 || c.toNat == 9 || c.toNat == 10 || c.toNat == 13 ||
    c.toNat == 11 || c.toNat == 12 || c.toNat == 160 || c.toNat == 65279 ||
    c.toNat == 8232 || c.toNat == 8233

/- Embedding of the regex digit class: the ten ASCII digits. -/
def jsIsDigit (c : Char) : Bool := 48 ≤ c.toNat && c.toNat ≤ 57

def jsTrimList (l : List Char) : List Char :=
  ((l.dropWhile isJsWs).reverse.dropWhile isJsWs).reverse

/- Embedding of JavaScript String.prototype.trim. -/
def jsTrim (s : String) : String := ⟨jsTrimList s.data⟩

def asciiLowerChar (c : Char) : Char :=
  if 65 ≤ c.toNat && c.toNat ≤ 90 then Char.ofNat (c.toNat + 32) else c

/- Embedding of toLowerCase for the ASCII range used by the pipeline. -/
def asciiLower (s : String) : String := ⟨s.data.map asciiLowerChar⟩

/- Embedding of value.replace with the colon class and empty replacement. -/
def stripColons (s : String) : String := ⟨s.data.filter (fun c => c != ':')⟩

/- CSV codec (csvEscape from html-to-csv.js, splitCsvLine and
   cleanCellValue from the sync script). -/

def csvNeedsQuotes (s : String) : Bool :=
  s.data.any (fun c => c == '"' || c == ',' || c == '\n')

def doubleQuotesList : List Char → List Char
  | [] => []
  | c :: rest =>
    if c == '"' then '"' :: '"' :: doubleQuotesList rest else c :: doubleQuotesList rest

/- Embedding of csvEscape: a cell containing a comma, double quote or
   newline is wrapped in quotes, and internal quotes are doubled. -/
def csvEscape (value : String) : String :=
  let escaped : String := ⟨doubleQuotesList value.data⟩
  if csvNeedsQuotes value then "\"" ++ escaped ++ "\"" else escaped

def encodeCsvRow (row : Row) : String :=
  String.intercalate "," (row.map csvEscape)

/- Embedding of the replace call in cleanCellValue that rewrites each
   non-overlapping pair of double quotes to a single one, left to right. -/
def undoubleQuotes : List Char → List Char
  | '"' :: '"' :: rest => '"' :: undoubleQuotes rest
  | c :: rest => c :: undoubleQuotes rest
  | [] => []

def cleanCellValue (value : String) : String :=
  let trimmed := jsTrim value
  if trimmed = "" then "" else ⟨undoubleQuotes trimmed.data⟩

/- Embedding of splitCsvLine: a character scanner carrying the previous
   character, the quote state, the current cell and the emitted cells. -/
def splitCsvGo : List Char → Option Char → Bool → List Char → List String → List String
  | [], _, _, current, cells => cells ++ [cleanCellValue ⟨current⟩]
  | c :: rest, prev, inQuotes, current, cells =>
    if c == '"' && prev != some '\\' then
      splitCsvGo rest (some c) (!inQuotes) current cells
    else if c == ',' && !inQuotes then
      splitCsvGo rest (some c) inQuotes [] (cells ++ [cleanCellValue ⟨current⟩])
    else
      splitCsvGo rest (some c) inQuotes (current ++ [c]) cells

def splitCsvLine (line : String) : List String :=
  splitCsvGo line.data none false [] []

/- Report normalizer (html-to-csv.js). -/

/- Result of parsing a department or doctor identifier cell. -/
structure IdName where
  id : String
  name : String
deriving DecidableEq, Repr

def UNKNOWN_LABEL : String := "Unknown"

/- Embedding of the anchored regex of parseIdAndName: one or more digits,
   optional whitespace, a dash, optional whitespace, then a remainder free
   of line terminators; the captured name is trimmed. The greedy classes
   are pairwise disjoint, so the scan below is the unique match. -/
def parseIdAndName (value : String) : Option IdName :=
  if value = "" then none
  else
    let ds := value.data.takeWhile jsIsDigit
    if ds.isEmpty then none
    else
      let afterDigits := value.data.drop ds.length
      let afterWs := afterDigits.dropWhile isJsWs
      match afterWs with
      | '-' :: tail =>
        let rest := tail.dropWhile isJsWs
        if rest.any (fun c => c == '\n' || c == '\r' || c == ' ' || c == ' ') then none
        else some ⟨⟨ds⟩, jsTrim ⟨rest⟩⟩
      | _ => none

def isDigitsStr (s : String) : Bool :=
  !s.data.isEmpty && s.data.all jsIsDigit

/- Embedding of parseLabelWithFallback (also parseDepartment and
   parseDoctor, which delegate to it unchanged). -/
def parseLabelWithFallback (value : String) : IdName :=
  match parseIdAndName value with
  | some parsed =>
    ⟨if parsed.id = "" then UNKNOWN_LABEL else parsed.id,
     if parsed.name = "" then UNKNOWN_LABEL else parsed.name⟩
  | none =>
    let text := jsTrim value
    if text = "" then ⟨UNKNOWN_LABEL, UNKNOWN_LABEL⟩
    else
      let lower := asciiLower text
      if lower = "unknown" || lower = "null" || lower = "undefined" then
        ⟨UNKNOWN_LABEL, UNKNOWN_LABEL⟩
      else if isDigitsStr text then ⟨text, UNKNOWN_LABEL⟩
      else ⟨UNKNOWN_LABEL, text⟩

/- Embedding of isTotalsRow: first cell with colons stripped, trimmed and
   lower-cased equals one of the totals labels; empty or missing first
   cell is never a totals row. -/
def isTotalsRow (row : Row) : Bool :=
  match row.head? with
  | none => false
  | some first =>
    if first = "" then false
    else
      let label := asciiLower (jsTrim (stripColons first))
      label == "total" || label == "totals" ||
        label == "grand totals" || label == "grand total"

/- Embedding of isDepartmentRow: a single-cell row whose cell parses as an
   id-dash-name label. -/
def isDepartmentRow (row : Row) : Bool :=
  row.length == 1 && (parseIdAndName (row.headD "")).isSome

/- Embedding of the metrics-header test used in looksLikeDepartmentReport
   and normalizeDepartmentReport: nonempty first cell that trims and
   lower-cases to the doctor-name label. -/
def isDoctorNameHeader (row : Row) : Bool :=
  match row.head? with
  | none => false
  | some first => first != "" && asciiLower (jsTrim first) == "doctor name"

def looksLikeDepartmentReport (rows : List Row) : Bool :=
  rows.any isDepartmentRow && rows.any isDoctorNameHeader

/- Embedding of the numeric-only row regex test: every cell is empty or
   consists solely of digits, whitespace, dots, commas and dashes. -/
def isNumericOnlyRow (row : Row) : Bool :=
  !row.isEmpty &&
    row.all (fun cell =>
      cell == "" ||
        (!cell.data.isEmpty &&
          cell.data.all (fun c =>
            jsIsDigit c || isJsWs c || c == '.' || c == ',' || c == '-')))

/- Embedding of rowIncludesText: some cell contains an ASCII letter. -/
def rowIncludesText (row : Row) : Bool :=
  row.any (fun cell =>
    cell.data.any (fun c =>
      (97 ≤ c.toNat && c.toNat ≤ 122) || (65 ≤ c.toNat && c.toNat ≤ 90)))

/- Mutable state of the normalizeDepartmentReport loop. -/
structure DeptState where
  currentDepartment : Option IdName
  metricsHeader : Option (List String)
  lastRowWasTotals : Bool
  hasDoctorData : Bool
  result : List Row
deriving Repr

def initDeptState : DeptState :=
  ⟨none, none, false, false, []⟩

def canonicalHeader (metricsHeader : List String) : Row :=
  ["Department ID", "Department Name", "Doctor ID", "Doctor Name"] ++ metricsHeader

/- Embedding of the body of the forEach loop of normalizeDepartmentReport,
   one row at a time over the explicit state. -/
def deptStep (s : DeptState) (row : Row) : DeptState :=
  if isDepartmentRow row then
    { s with currentDepartment := some (parseLabelWithFallback (row.headD "")),
             lastRowWasTotals := false, hasDoctorData := false }
  else if isDoctorNameHeader row then
    let mh := row.drop 1
    { s with metricsHeader := some mh,
             result :=
               if !mh.isEmpty && s.result.isEmpty then
                 s.result ++ [canonicalHeader mh]
               else s.result,
             lastRowWasTotals := false, hasDoctorData := false }
  else if s.currentDepartment.isNone || s.metricsHeader.isNone || row.length < 2 then
    s
  else if isTotalsRow row then
    { s with lastRowWasTotals := true }
  else if isNumericOnlyRow row &&
      (s.lastRowWasTotals || (s.hasDoctorData && !rowIncludesText row)) then
    s
  else
    let mh := s.metricsHeader.getD []
    let dataRow := if row.length == mh.length then "" :: row else row
    let doctorInfo := parseLabelWithFallback (dataRow.headD "")
    let dept := s.currentDepartment.getD ⟨UNKNOWN_LABEL, UNKNOWN_LABEL⟩
    { s with
      result := s.result ++
        [[(if dept.id = "" then UNKNOWN_LABEL else dept.id),
          (if dept.name = "" then UNKNOWN_LABEL else dept.name),
          doctorInfo.id, doctorInfo.name] ++ dataRow.drop 1],
      lastRowWasTotals := false, hasDoctorData := true }

/- Accumulated result of the normalizeDepartmentReport loop, before the
   final empty-result fallback. -/
def deptReduce (rows : List Row) : List Row :=
  (rows.foldl deptStep initDeptState).result

/- Embedding of normalizeDepartmentReport, including the fallback that
   returns the original rows when the reduction produced nothing. -/
def normalizeDepartmentReport (rows : List Row) : List Row :=
  let result := deptReduce rows
  if result.isEmpty then rows else result

/- Embedding of normalizeRows: department-grouped reshaping when the table
   has both a department row and a doctor-name header, otherwise pass
   through with totals rows filtered out. -/
def normalizeRows (rows : List Row) : List Row :=
  if looksLikeDepartmentReport rows then normalizeDepartmentReport rows
  else rows.filter (fun row => !isTotalsRow row)

/- Period normalization and serial date conversion (sync script, latest
   variant). -/

def isLeapYear (y : Nat) : Bool :=
  (y % 4 == 0 && y % 100 != 0) || y % 400 == 0

def daysInMonth (y m : Nat) : Nat :=
  if m == 2 then (if isLeapYear y then 29 else 28)
  else if m == 4 || m == 6 || m == 9 || m == 11 then 30
  else 31

/- Calendar date in the proleptic Gregorian calendar. -/
structure CivilDate where
  year : Nat
  month : Nat
  day : Nat
deriving DecidableEq, Repr

def firstOfNextMonth (d : CivilDate) : CivilDate :=
  if d.month < 12 then ⟨d.year, d.month + 1, 1⟩ else ⟨d.year + 1, 1, 1⟩

def nextDay (d : CivilDate) : CivilDate :=
  if d.day < daysInMonth d.year d.month then ⟨d.year, d.month, d.day + 1⟩
  else firstOfNextMonth d

/- Day-by-day date addition: the meaning of a calendar date plus n days. -/
def addDaysIter : Nat → CivilDate → CivilDate
  | 0, d => d
  | n + 1, d => addDaysIter n (nextDay d)

/- Month-jumping day addition: computes the same date as addDaysIter (the
   correspondence is proved below) with recursion depth bounded by the
   number of month boundaries crossed, so dates far from the epoch still
   evaluate inside the kernel. The fuel argument is only a structural
   termination device and is always sufficient, because every recursive
   step consumes at least one day. -/
def addDaysAux : Nat → Nat → CivilDate → CivilDate
  | 0, _, d => d
  | fuel + 1, n, d =>
    if n = 0 then d
    else if n ≤ daysInMonth d.year d.month - d.day then
      ⟨d.year, d.month, d.day + n⟩
    else
      addDaysAux fuel (n - (daysInMonth d.year d.month - d.day + 1)) (firstOfNextMonth d)

def addDays (n : Nat) (d : CivilDate) : CivilDate := addDaysAux (n + 1) n d

def digitChar (n : Nat) : Char := Char.ofNat (48 + n % 10)

def natToStrAux : Nat → Nat → List Char
  | 0, _ => []
  | fuel + 1, n =>
    if n < 10 then [digitChar n]
    else natToStrAux fuel (n / 10) ++ [digitChar (n % 10)]

def natToStr (n : Nat) : String := ⟨natToStrAux (n + 1) n⟩

/- Embedding of String(n).padStart with width two and a zero pad. -/
def pad2 (n : Nat) : String := if n < 10 then "0" ++ natToStr n else natToStr n

/- The spreadsheet serial-date epoch, Date.UTC(1899, 11, 30). -/
def excelEpoch : CivilDate := ⟨1899, 12, 30⟩

def renderIsoDate (d : CivilDate) : String :=
  natToStr d.year ++ "-" ++ pad2 d.month ++ "-" ++ pad2 d.day

/- The largest serial the Date type can represent: a Date carries at most
   8640000000000000 ms either side of 1970-01-01, that is 100000000 days,
   and the 1899-12-30 epoch sits 25569 days before 1970-01-01, so serials
   up to 100000000 + 25569 days stay inside the range. Within the range
   every intermediate value is an integer below 2 to the 53rd, so the
   millisecond float arithmetic of the source is exact. -/
def excelSerialMax : Nat := 100025569

/- Embedding of excelSerialToIsoDate: within the Date range the
   millisecond arithmetic is exact proleptic Gregorian day addition from
   the 1899-12-30 epoch; past the range the Date is invalid, every UTC
   field reads NaN, and the rendered string is NaN-NaN-NaN. -/
def excelSerialToIsoDate (serial : Nat) : String :=
  if serial ≤ excelSerialMax then renderIsoDate (addDays serial excelEpoch)
  else "NaN-NaN-NaN"

/- Embedding of the serial regex: digits, optionally followed by a dot and
   one or more zeros. -/
def isSerialSuffix : List Char → Bool
  | [] => true
  | '.' :: zs => !zs.isEmpty && zs.all (fun c => c == '0')
  | _ => false

def isSerialString (s : String) : Bool :=
  let ds := s.data.takeWhile jsIsDigit
  !ds.isEmpty && isSerialSuffix (s.data.drop ds.length)

def natOfDigits (l : List Char) : Nat :=
  l.foldl (fun a c => a * 10 + (c.toNat - 48)) 0

/- Embedding of the ISO-like regex of normalizePeriod: four digits, dash,
   two digits, optionally dash and two digits. -/
def isoParse (s : String) : Option (String × String × Option String) :=
  match s.data with
  | [y1, y2, y3, y4, '-', m1, m2] =>
    if [y1, y2, y3, y4, m1, m2].all jsIsDigit then
      some (⟨[y1, y2, y3, y4]⟩, ⟨[m1, m2]⟩, none)
    else none
  | [y1, y2, y3, y4, '-', m1, m2, '-', d1, d2] =>
    if [y1, y2, y3, y4, m1, m2, d1, d2].all jsIsDigit then
      some (⟨[y1, y2, y3, y4]⟩, ⟨[m1, m2]⟩, some ⟨[d1, d2]⟩)
    else none
  | _ => none

/- Embedding of normalizePeriod from the latest sync variant. -/
def normalizePeriod (period : String) : String :=
  let trimmed := jsTrim period
  if trimmed = "" then ""
  else if isSerialString trimmed then
    excelSerialToIsoDate (natOfDigits (trimmed.data.takeWhile jsIsDigit))
  else
    match isoParse trimmed with
    | some (y, m, d) => y ++ "-" ++ m ++ "-" ++ d.getD "01"
    | none => trimmed

/- Tabular upsert engine (sync script, latest variant). The remote store
   is abstracted to the contents of one destination tab: a list of rows,
   empty meaning no data. -/

/- JavaScript value threaded as the clinic argument and delete target:
   null, undefined, or a string. -/
inductive JsVal where
  | jsNull
  | jsUndefined
  | jsStr (s : String)
deriving DecidableEq, Repr

def jsValEqStr (v : JsVal) (s : String) : Bool :=
  match v with
  | .jsStr t => t == s
  | _ => false

def jsOfCell (c : Option String) : JsVal :=
  match c with
  | some s => .jsStr s
  | none => .jsUndefined

/- Embedding of findColumnIndex: first header cell that is nonempty and
   case-insensitively equals the column name after trimming. -/
def findColumnIndex (header : Row) (columnName : String) : Option Nat :=
  header.findIdx? (fun cell =>
    cell != "" && asciiLower (jsTrim cell) == asciiLower (jsTrim columnName))

/- Embedding of the body of removeRowsForDate given a successful read of
   the destination values: keep rows whose normalized date differs from
   the normalized target, or whose clinic cell differs from the tracked
   clinic; rewrite the tab as header plus kept rows when anything was
   removed. -/
def removeRowsCore (values : List Row) (targetDate : String) (clinicName : JsVal) : List Row :=
  if values.isEmpty then values
  else
    let header := values.headD []
    match findColumnIndex header "date" with
    | none => values
    | some dateIdx =>
      let clinicIdx : Option Nat :=
        if clinicName != JsVal.jsNull then findColumnIndex header "clinic" else none
      let normalizedTarget := normalizePeriod targetDate
      let filteredRows := (values.drop 1).filter (fun row =>
        let rowDate := row.getD dateIdx ""
        if normalizePeriod rowDate != normalizedTarget then true
        else
          match clinicIdx with
          | none => false
          | some ci =>
            if clinicName == JsVal.jsNull then false
            else !(jsValEqStr clinicName (row.getD ci "")))
      if filteredRows.length == values.length - 1 then values
      else header :: filteredRows

/- Embedding of removeRowsForDate when the read of the destination
   succeeds and returns the current contents. -/
def removeRowsForDate (state : List Row) (targetDate : String) (clinicName : JsVal) : List Row :=
  removeRowsCore state targetDate clinicName

/- Embedding of removeRowsForDate over a fallible read: a not-found or
   bad-range remote error (code 400 or 404) is swallowed and the
   destination is treated as having no existing rows; any other code
   propagates. -/
def removeRowsForDateE (readResult : Except Nat (List Row)) (targetDate : String)
    (clinicName : JsVal) : Except Nat (List Row) :=
  match readResult with
  | .error e => if e == 400 || e == 404 then .ok [] else .error e
  | .ok values => .ok (removeRowsCore values targetDate clinicName)

def pushDateIndex (rows : List Row) : Option Nat :=
  findColumnIndex (rows.headD []) "date"

def pushTargetDate (rows : List Row) : JsVal :=
  match pushDateIndex rows with
  | some di => if 1 < rows.length then jsOfCell ((rows.getD 1 []).get? di) else .jsNull
  | none => .jsNull

def pushClinicIndex (rows : List Row) : Option Nat :=
  findColumnIndex (rows.headD []) "clinic"

def pushTargetClinic (rows : List Row) : JsVal :=
  match pushClinicIndex rows with
  | some ci => if 1 < rows.length then jsOfCell ((rows.getD 1 []).get? ci) else .jsNull
  | none => .jsNull

/- Embedding of the write phase of pushToSheet: when the destination has a
   first row the header of the pushed dataset is dropped and only data
   rows are appended, otherwise the full dataset including header is
   written. -/
def appendPhase (state : List Row) (rows : List Row) : List Row :=
  let hasExistingData := !state.isEmpty
  let valuesToAppend := if hasExistingData then rows.drop 1 else rows
  if valuesToAppend.isEmpty then state else state ++ valuesToAppend

/- Embedding of pushToSheet over destination contents, with every remote
   read succeeding: delete-matching rows for the dataset date and clinic,
   then append. -/
def pushToSheet (state : List Row) (rows : List Row) : List Row :=
  if rows.isEmpty then state
  else
    let afterDelete :=
      match pushDateIndex rows, pushTargetDate rows with
      | some _, JsVal.jsStr d =>
        if d != "" then removeRowsForDate state d (pushTargetClinic rows) else state
      | _, _ => state
    appendPhase afterDelete rows

/- Embedding of pushToSheet over a fallible destination read: the
   pre-delete read outcome is the tab argument; an error of the
   not-found or bad-range class during either read is treated as an
   empty destination, any other error aborts before the append. -/
def pushToSheetE (tab : Except Nat (List Row)) (rows : List Row) : Except Nat (List Row) :=
  if rows.isEmpty then tab
  else
    let preDelete : Except Nat (List Row) :=
      match pushDateIndex rows, pushTargetDate rows with
      | some _, JsVal.jsStr d =>
        if d != "" then removeRowsForDateE tab d (pushTargetClinic rows) else tab
      | _, _ => tab
    match preDelete with
    | .error e => if e == 400 || e == 404 then .ok (appendPhase [] rows) else .error e
    | .ok newState => .ok (appendPhase newState rows)

/- Conversion entry points downstream of extraction. -/

/- Embedding of convertHtmlToCsv from html-to-csv.js, parametrized by the
   extracted rows: an input normalizing to zero rows is skipped with a
   warning (ok none), otherwise the CSV text is produced; no error is
   raised. -/
def convertHtmlToCsvCli (rows : List Row) : Except String (Option String) :=
  let normalized := normalizeRows rows
  if normalized.isEmpty then .ok none
  else .ok (some (String.intercalate "\n" (normalized.map encodeCsvRow)))

/- Embedding of convertHtmlToCsv from the form server, parametrized by the
   extracted rows: zero extracted rows raise the no-table-data error,
   otherwise the rows are encoded directly. -/
def convertHtmlToCsvForm (rows : List Row) : Except String String :=
  if rows.isEmpty then .error "No table data detected"
  else .ok (String.intercalate "\n" (rows.map encodeCsvRow))

/- Shape predicates used by the statements and invariants below. -/

/- A calendar date whose day is inside the bounds of its month. -/
def validDate (d : CivilDate) : Prop :=
  1 ≤ d.day ∧ d.day ≤ daysInMonth d.year d.month

/- An identifier cell as produced by parseLabelWithFallback: either the
   Unknown sentinel or a nonempty string of digits. -/
def digitsOrUnknownCell (x : String) : Prop :=
  x = UNKNOWN_LABEL ∨ (x ≠ "" ∧ ∀ c ∈ x.data, jsIsDigit c = true)

/- A row emitted by the department reducer for a data row: nonempty, with
   the department id cell first. -/
def goodDataRow (r : Row) : Prop :=
  ∃ x rest, r = x :: rest ∧ digitsOrUnknownCell x

/- The tracked current department always carries a digits-or-Unknown id. -/
def goodDept (s : DeptState) : Prop :=
  ∀ dpt, s.currentDepartment = some dpt → digitsOrUnknownCell dpt.id

/- Row-length discipline for the C4 invariant: length 1, k or k plus one,
   and metrics-header rows carry exactly k labels. -/
abbrev rowLenOK (k : Nat) (row : Row) : Prop :=
  (row.length = 1 ∨ row.length = k ∨ row.length = k + 1) ∧
    (isDoctorNameHeader row = true → row.length = k + 1)

/- Helper lemmas: calendar arithmetic. -/

theorem addDaysIter_succ_outer (n : Nat) (d : CivilDate) :
    addDaysIter (n + 1) d = nextDay (addDaysIter n d) := by
  induction n generalizing d with
  | zero => rfl
  | succ m ih =>
    show addDaysIter (m + 1) (nextDay d) = nextDay (addDaysIter (m + 1) d)
    rw [ih]
    rfl

theorem addDaysIter_add (a b : Nat) (d : CivilDate) :
    addDaysIter (a + b) d = addDaysIter b (addDaysIter a d) := by
  induction b with
  | zero => rfl
  | succ m ih =>
    have h1 : a + (m + 1) = a + m + 1 := by omega
    rw [h1, addDaysIter_succ_outer, ih, addDaysIter_succ_outer]

theorem daysInMonth_ge (y m : Nat) : 28 ≤ daysInMonth y m := by
  unfold daysInMonth
  split
  · split <;> omega
  · split <;> omega

theorem addDaysIter_within (k : Nat) (d : CivilDate) (h1 : 1 ≤ d.day)
    (h2 : d.day + k ≤ daysInMonth d.year d.month) :
    addDaysIter k d = ⟨d.year, d.month, d.day + k⟩ := by
  induction k generalizing d with
  | zero =>
    show d = ⟨d.year, d.month, d.day + 0⟩
    cases d
    rfl
  | succ m ih =>
    show addDaysIter m (nextDay d) = ⟨d.year, d.month, d.day + (m + 1)⟩
    have hlt : d.day < daysInMonth d.year d.month := by omega
    have hnd : nextDay d = ⟨d.year, d.month, d.day + 1⟩ := by
      unfold nextDay
      rw [if_pos hlt]
    rw [hnd]
    rw [ih ⟨d.year, d.month, d.day + 1⟩ (by simp) (by simp; omega)]
    simp
    omega

theorem addDaysIter_next_month (d : CivilDate) (h1 : 1 ≤ d.day)
    (h2 : d.day ≤ daysInMonth d.year d.month) :
    addDaysIter (daysInMonth d.year d.month - d.day + 1) d = firstOfNextMonth d := by
  rw [addDaysIter_succ_outer]
  rw [addDaysIter_within (daysInMonth d.year d.month - d.day) d h1 (by omega)]
  unfold nextDay
  rw [if_neg (by simp; omega)]
  unfold firstOfNextMonth
  simp

theorem firstOfNextMonth_valid (d : CivilDate) : validDate (firstOfNextMonth d) := by
  unfold firstOfNextMonth validDate
  have h1 := daysInMonth_ge d.year (d.month + 1)
  have h2 := daysInMonth_ge (d.year + 1) 1
  split <;> simp <;> omega

theorem addDaysAux_eq_iter (fuel : Nat) :
    ∀ n d, n < fuel → validDate d → addDaysAux fuel n d = addDaysIter n d := by
  induction fuel with
  | zero => intro n d h; omega
  | succ f ih =>
    intro n d hn hv
    show (if n = 0 then d
      else if n ≤ daysInMonth d.year d.month - d.day then ⟨d.year, d.month, d.day + n⟩
      else addDaysAux f (n - (daysInMonth d.year d.month - d.day + 1)) (firstOfNextMonth d)) =
      addDaysIter n d
    by_cases h0 : n = 0
    · rw [if_pos h0, h0]
      rfl
    rw [if_neg h0]
    obtain ⟨hd1, hd2⟩ := hv
    by_cases hsmall : n ≤ daysInMonth d.year d.month - d.day
    · rw [if_pos hsmall, addDaysIter_within n d hd1 (by omega)]
    rw [if_neg hsmall]
    have hjump : daysInMonth d.year d.month - d.day + 1 ≤ n := by omega
    have hsplit : n = (daysInMonth d.year d.month - d.day + 1) +
        (n - (daysInMonth d.year d.month - d.day + 1)) := by omega
    rw [ih _ _ (by omega) (firstOfNextMonth_valid d)]
    conv_rhs => rw [hsplit]
    rw [addDaysIter_add, addDaysIter_next_month d hd1 hd2]

theorem addDays_eq_iter (n : Nat) (d : CivilDate) (hv : validDate d) :
    addDays n d = addDaysIter n d :=
  addDaysAux_eq_iter (n + 1) n d (by omega) hv

theorem excelEpoch_valid : validDate excelEpoch := by
  constructor <;> decide

/- Within the Date range the serial conversion used by normalizePeriod is
   exactly day-by-day Gregorian addition from the 1899-12-30 epoch. -/
theorem excelSerialToIsoDate_iter (n : Nat) (h : n ≤ excelSerialMax) :
    excelSerialToIsoDate n = renderIsoDate (addDaysIter n excelEpoch) := by
  unfold excelSerialToIsoDate
  rw [if_pos h, addDays_eq_iter n excelEpoch excelEpoch_valid]

/- Past the Date range the serial conversion renders the invalid date. -/
theorem excelSerialToIsoDate_overflow (n : Nat) (h : excelSerialMax < n) :
    excelSerialToIsoDate n = "NaN-NaN-NaN" := by
  unfold excelSerialToIsoDate
  rw [if_neg (by omega)]

/- Helper lemmas: characters and strings of digits. -/

theorem dropWhile_eq_self_of {p : Char → Bool} (l : List Char)
    (h : ∀ c ∈ l, p c = false) : l.dropWhile p = l := by
  cases l with
  | nil => rfl
  | cons a t =>
    rw [List.dropWhile_cons]
    simp [h a (List.mem_cons_self a t)]

theorem jsTrimList_eq_self (l : List Char) (h : ∀ c ∈ l, isJsWs c = false) :
    jsTrimList l = l := by
  unfold jsTrimList
  rw [dropWhile_eq_self_of l h,
    dropWhile_eq_self_of _ (fun c hc => h c (List.mem_reverse.mp hc)),
    List.reverse_reverse]

theorem map_eq_self_of (l : List Char) (f : Char → Char) (h : ∀ c ∈ l, f c = c) :
    l.map f = l := by
  induction l with
  | nil => rfl
  | cons a t ih =>
    simp only [List.map_cons]
    rw [h a (List.mem_cons_self a t), ih (fun c hc => h c (List.mem_cons_of_mem a hc))]

theorem jsIsDigit_not_ws (c : Char) (h : jsIsDigit c = true) : isJsWs c = false := by
  unfold jsIsDigit at h
  simp at h
  unfold isJsWs
  simp
  omega

theorem jsIsDigit_ne_colon (c : Char) (h : jsIsDigit c = true) : (c != ':') = true := by
  unfold jsIsDigit at h
  simp at h
  simp only [bne_iff_ne]
  intro he
  have h58 : (':').toNat = 58 := rfl
  rw [he, h58] at h
  omega

theorem jsIsDigit_lower (c : Char) (h : jsIsDigit c = true) : asciiLowerChar c = c := by
  unfold jsIsDigit at h
  simp at h
  unfold asciiLowerChar
  rw [if_neg]
  simp
  omega

/- Colon stripping, trimming and lower-casing leave a digit string
   unchanged. -/
theorem totalsLabel_digits_id (x : String) (h : ∀ c ∈ x.data, jsIsDigit c = true) :
    asciiLower (jsTrim (stripColons x)) = x := by
  have h1 : stripColons x = x :=
    String.ext (List.filter_eq_self.mpr (fun c hc => jsIsDigit_ne_colon c (h c hc)))
  have h2 : jsTrim x = x :=
    String.ext (jsTrimList_eq_self x.data (fun c hc => jsIsDigit_not_ws c (h c hc)))
  have h3 : asciiLower x = x :=
    String.ext (map_eq_self_of x.data _ (fun c hc => jsIsDigit_lower c (h c hc)))
  rw [h1, h2, h3]

theorem digits_ne_word (x : String) (h : ∀ c ∈ x.data, jsIsDigit c = true) (w : String)
    (hw : ∃ c ∈ w.data, jsIsDigit c = false) : x ≠ w := by
  intro he
  subst he
  obtain ⟨c, h1, h2⟩ := hw
  rw [h c h1] at h2
  exact Bool.noConfusion h2

/- A digits-or-Unknown first cell never folds to a totals label. -/
theorem isTotalsRow_digitsOrUnknown (x : String) (t : Row) (hx : digitsOrUnknownCell x) :
    isTotalsRow (x :: t) = false := by
  cases hx with
  | inl h =>
    subst h
    show isTotalsRow (UNKNOWN_LABEL :: t) = false
    simp only [isTotalsRow, List.head?_cons]
    decide
  | inr h =>
    obtain ⟨hne, hdig⟩ := h
    simp only [isTotalsRow, List.head?_cons]
    rw [if_neg hne, totalsLabel_digits_id x hdig]
    simp only [Bool.or_eq_false_iff, beq_eq_false_iff_ne]
    refine ⟨⟨⟨?_, ?_⟩, ?_⟩, ?_⟩ <;>
      exact digits_ne_word x hdig _ ⟨'t', by simp, by decide⟩

/- A digits-or-Unknown cell is not the canonical first header cell. -/
theorem digitsOrUnknown_ne_deptId (x : String) (hx : digitsOrUnknownCell x) :
    x ≠ "Department ID" := by
  cases hx with
  | inl h => subst h; decide
  | inr h =>
    exact digits_ne_word x h.2 _ ⟨'D', by simp, by decide⟩

/- Helper lemmas: identifier parsing. -/

theorem parseIdAndName_some (v : String) (p : IdName) (h : parseIdAndName v = some p) :
    p.id ≠ "" ∧ ∀ c ∈ p.id.data, jsIsDigit c = true := by
  unfold parseIdAndName at h
  by_cases hv : v = ""
  · rw [if_pos hv] at h
    exact absurd h (by simp)
  rw [if_neg hv] at h
  dsimp only at h
  split at h
  · exact absurd h (by simp)
  rename_i hne
  simp only [List.isEmpty_iff] at hne
  split at h
  · rename_i tail heq
    split at h
    · exact absurd h (by simp)
    · have hp : p = ⟨⟨v.data.takeWhile jsIsDigit⟩, jsTrim ⟨tail.dropWhile isJsWs⟩⟩ :=
        (Option.some.injEq _ _ ▸ h).symm
      subst hp
      constructor
      · intro he
        exact hne (congrArg String.data he)
      · intro c hc
        exact List.mem_takeWhile_imp hc
  · exact absurd h (by simp)

/- The id field produced by parseLabelWithFallback is the Unknown sentinel
   or a nonempty digit string, and in particular never empty. -/
theorem label_id_shape (v : String) : digitsOrUnknownCell (parseLabelWithFallback v).id := by
  unfold parseLabelWithFallback
  cases hp : parseIdAndName v with
  | some parsed =>
    obtain ⟨hne, hdig⟩ := parseIdAndName_some v parsed hp
    dsimp only
    rw [if_neg hne]
    exact Or.inr ⟨hne, hdig⟩
  | none =>
    dsimp only
    by_cases h1 : jsTrim v = ""
    · rw [if_pos h1]
      exact Or.inl rfl
    rw [if_neg h1]
    split
    · exact Or.inl rfl
    split
    · rename_i hd
      unfold isDigitsStr at hd
      simp only [Bool.and_eq_true, List.all_eq_true] at hd
      exact Or.inr ⟨h1, hd.2⟩
    · exact Or.inl rfl

/- Helper lemmas: the department reduction fold. -/

theorem deptFold_inv {I : DeptState → Prop} {P : Row → Prop}
    (hstep : ∀ s row, P row → I s → I (deptStep s row)) :
    ∀ (rows : List Row) (s : DeptState), (∀ r ∈ rows, P r) → I s → I (rows.foldl deptStep s) := by
  intro rows
  induction rows with
  | nil => intro s _ hI; exact hI
  | cons a t ih =>
    intro s hP hI
    exact ih (deptStep s a) (fun r hr => hP r (List.mem_cons_of_mem a hr))
      (hstep s a (hP a (List.mem_cons_self a t)) hI)

theorem deptStep_goodDept (s : DeptState) (row : Row) (h : goodDept s) :
    goodDept (deptStep s row) := by
  unfold deptStep
  split_ifs with h1 h2 h3 h4 h5
  · intro dpt hd
    have he := Option.some.inj hd
    exact he ▸ label_id_shape (row.headD "")
  · intro dpt hd
    exact h dpt hd
  · exact h
  · intro dpt hd
    exact h dpt hd
  · exact h
  · intro dpt hd
    exact h dpt hd

theorem digitsOrUnknown_if (x : String) (h : digitsOrUnknownCell x) :
    digitsOrUnknownCell (if x = "" then UNKNOWN_LABEL else x) := by
  by_cases hx : x = ""
  · rw [if_pos hx]
    exact Or.inl rfl
  · rw [if_neg hx]
    exact h

theorem isTotalsRow_canonicalHeader (mh : List String) :
    isTotalsRow (canonicalHeader mh) = false := by
  show isTotalsRow ("Department ID" :: _) = false
  simp only [isTotalsRow, List.head?_cons]
  decide

/- The current department of any reachable reducer state has a
   digits-or-Unknown id, so every emitted data row starts with a
   digits-or-Unknown cell; together with the canonical header this keeps
   every row of the accumulated result free of totals labels. -/
theorem deptStep_noTotals (s : DeptState) (row : Row)
    (h : goodDept s ∧ ∀ r ∈ s.result, isTotalsRow r = false) :
    goodDept (deptStep s row) ∧
      ∀ r ∈ (deptStep s row).result, isTotalsRow r = false := by
  obtain ⟨hg, hres⟩ := h
  refine ⟨deptStep_goodDept s row hg, ?_⟩
  unfold deptStep
  split_ifs with h1 h2 h3 h4 h5
  · exact hres
  · dsimp only
    split
    · intro r hr
      rcases List.mem_append.mp hr with hmem | hmem
      · exact hres r hmem
      · have he : r = canonicalHeader (row.drop 1) := by simpa using hmem
        subst he
        exact isTotalsRow_canonicalHeader (row.drop 1)
    · exact hres
  · exact hres
  · exact hres
  · exact hres
  · dsimp only
    intro r hr
    rcases List.mem_append.mp hr with hmem | hmem
    · exact hres r hmem
    · simp only [List.mem_singleton] at hmem
      subst hmem
      simp only [Bool.not_eq_true, Bool.or_eq_false_iff] at h3
      rcases hc : s.currentDepartment with _ | dpt
      · rw [hc] at h3
        simp at h3
      · have hgd : digitsOrUnknownCell dpt.id := hg dpt hc
        exact isTotalsRow_digitsOrUnknown _ _ (digitsOrUnknown_if dpt.id hgd)

theorem takeWhile_ne_nil_head {p : Char → Bool} (l : List Char) (h : l.takeWhile p ≠ []) :
    ∃ c t, l = c :: t ∧ p c = true := by
  cases l with
  | nil => exact absurd rfl h
  | cons a t =>
    rw [List.takeWhile_cons] at h
    by_cases hp : p a = true
    · exact ⟨a, t, rfl, hp⟩
    · rw [if_neg hp] at h
      exact absurd rfl h

theorem dropWhile_append_singleton {p : Char → Bool} (c : Char) (hc : p c = false)
    (l : List Char) : ∃ t, (l ++ [c]).dropWhile p = t ++ [c] := by
  induction l with
  | nil => exact ⟨[], by simp [List.dropWhile_cons, hc]⟩
  | cons a t ih =>
    by_cases hp : p a = true
    · obtain ⟨t', ht'⟩ := ih
      exact ⟨t', by rw [List.cons_append, List.dropWhile_cons, if_pos hp, ht']⟩
    · refine ⟨a :: t, ?_⟩
      rw [List.cons_append, List.dropWhile_cons, if_neg hp]

theorem jsTrimList_cons_head (c : Char) (hc : isJsWs c = false) (t : List Char) :
    ∃ t', jsTrimList (c :: t) = c :: t' := by
  unfold jsTrimList
  rw [List.dropWhile_cons, if_neg (by simp [hc]), List.reverse_cons]
  obtain ⟨t', ht'⟩ := dropWhile_append_singleton c hc t.reverse
  rw [ht', List.reverse_append]
  exact ⟨t'.reverse, by simp⟩

theorem parseIdAndName_some_headDigit (v : String) (p : IdName)
    (h : parseIdAndName v = some p) : ∃ c t, v.data = c :: t ∧ jsIsDigit c = true := by
  unfold parseIdAndName at h
  by_cases hv : v = ""
  · rw [if_pos hv] at h
    exact absurd h (by simp)
  rw [if_neg hv] at h
  dsimp only at h
  split at h
  · exact absurd h (by simp)
  rename_i hne
  simp only [List.isEmpty_iff] at hne
  exact takeWhile_ne_nil_head v.data hne

/- A department-header row is never a metrics-header row: its cell starts
   with a digit, which survives trimming and lower-casing, while the
   doctor-name label starts with a letter. -/
theorem dept_row_not_doctor (row : Row) (h : isDepartmentRow row = true) :
    isDoctorNameHeader row = false := by
  unfold isDepartmentRow at h
  simp only [Bool.and_eq_true] at h
  obtain ⟨hlen, hsome⟩ := h
  cases row with
  | nil => rfl
  | cons first rest =>
    obtain ⟨p, hp⟩ := Option.isSome_iff_exists.mp hsome
    obtain ⟨c, t, hdata, hdig⟩ := parseIdAndName_some_headDigit _ p hp
    unfold isDoctorNameHeader
    simp only [List.head?_cons]
    have hfirst : (first :: rest).headD "" = first := rfl
    rw [hfirst] at hdata hp
    obtain ⟨t', ht'⟩ := jsTrimList_cons_head c (jsIsDigit_not_ws c hdig) t
    have htrim : jsTrim first = ⟨c :: t'⟩ := by
      unfold jsTrim
      rw [hdata, ht']
    have hlow : asciiLower (jsTrim first) = ⟨c :: (t'.map asciiLowerChar)⟩ := by
      rw [htrim]
      unfold asciiLower
      show (⟨asciiLowerChar c :: t'.map asciiLowerChar⟩ : String) =
        (⟨c :: t'.map asciiLowerChar⟩ : String)
      rw [jsIsDigit_lower c hdig]
    rw [hlow]
    have hne : (⟨c :: (t'.map asciiLowerChar)⟩ : String) ≠ "doctor name" := by
      intro he
      have hh := congrArg (fun s : String => s.data.head?) he
      have hx1 : (⟨c :: (t'.map asciiLowerChar)⟩ : String).data.head? = some c := rfl
      have hx2 : ("doctor name" : String).data.head? = some 'd' := by decide
      dsimp only at hh
      rw [hx1, hx2] at hh
      have hc' : c = 'd' := Option.some.inj hh
      rw [hc'] at hdig
      exact absurd hdig (by decide)
    have hb : ((⟨c :: (t'.map asciiLowerChar)⟩ : String) == "doctor name") = false :=
      beq_eq_false_iff_ne.mpr hne
    rw [hb, Bool.and_false]

/- Preservation of the C5 invariant once the canonical header has been
   emitted: the result stays canonical header followed by data-shaped
   rows, and no second header is pushed because the result is nonempty. -/
theorem deptStep_phase2 (canon : Row) (s : DeptState) (row : Row)
    (h : goodDept s ∧ ∃ t, s.result = canon :: t ∧ ∀ r ∈ t, goodDataRow r) :
    goodDept (deptStep s row) ∧
      ∃ t, (deptStep s row).result = canon :: t ∧ ∀ r ∈ t, goodDataRow r := by
  obtain ⟨hg, t, hres, ht⟩ := h
  refine ⟨deptStep_goodDept s row hg, ?_⟩
  unfold deptStep
  split_ifs with h1 h2 h3 h4 h5
  · exact ⟨t, hres, ht⟩
  · dsimp only
    split
    · rename_i hcond
      rw [hres] at hcond
      simp at hcond
    · exact ⟨t, hres, ht⟩
  · exact ⟨t, hres, ht⟩
  · exact ⟨t, hres, ht⟩
  · exact ⟨t, hres, ht⟩
  · dsimp only
    rw [hres]
    refine ⟨t ++ [_], by rw [List.cons_append], ?_⟩
    intro r hr
    rcases List.mem_append.mp hr with hmem | hmem
    · exact ht r hmem
    · simp only [List.mem_singleton] at hmem
      subst hmem
      simp only [Bool.not_eq_true, Bool.or_eq_false_iff] at h3
      rcases hc : s.currentDepartment with _ | dpt
      · rw [hc] at h3
        simp at h3
      · exact ⟨_, _, rfl, digitsOrUnknown_if dpt.id (hg dpt hc)⟩

/- Before the first metrics-header row the reducer emits nothing: rows are
   either department headers (which only set the current department) or are
   skipped by the metrics-header guard. At the first metrics-header row
   with at least one label the canonical header is pushed, and from then
   on the phase-two invariant applies. -/
theorem deptReduce_canon (rows : List Row) (m : Row)
    (hfind : rows.find? isDoctorNameHeader = some m) (hlen : 2 ≤ m.length) :
    ∀ s : DeptState, s.metricsHeader = none → s.result = [] → goodDept s →
      ∃ t, (rows.foldl deptStep s).result = canonicalHeader (m.drop 1) :: t ∧
        ∀ r ∈ t, goodDataRow r := by
  induction rows with
  | nil => exact absurd hfind (by simp)
  | cons a rest ih =>
    intro s hmh hres hg
    by_cases hm : isDoctorNameHeader a = true
    · have hma : m = a := by
        rw [List.find?_cons_of_pos rest hm] at hfind
        exact (Option.some.inj hfind).symm
      subst hma
      have hstep : deptStep s m =
          { s with metricsHeader := some (m.drop 1),
                   result := [canonicalHeader (m.drop 1)],
                   lastRowWasTotals := false, hasDoctorData := false } := by
        unfold deptStep
        rw [if_neg, if_pos hm]
        · dsimp only
          congr 1
          rw [if_pos, hres]
          · rfl
          · rw [hres]
            simp only [List.isEmpty_nil, Bool.and_true]
            simp only [Bool.not_eq_true']
            rcases hd : m.drop 1 with _ | ⟨x, xs⟩
            · exfalso
              have := congrArg List.length hd
              rw [List.length_drop] at this
              simp at this
              omega
            · rfl
        · intro hdept
          rw [dept_row_not_doctor m hdept] at hm
          exact Bool.noConfusion hm
      show ∃ t, ((rest.foldl deptStep (deptStep s m)).result = _) ∧ _
      have hinv := deptFold_inv (I := fun st => goodDept st ∧
          ∃ t, st.result = canonicalHeader (m.drop 1) :: t ∧ ∀ r ∈ t, goodDataRow r)
        (P := fun _ => True)
        (fun st row _ hI => deptStep_phase2 (canonicalHeader (m.drop 1)) st row hI)
        rest (deptStep s m) (fun _ _ => trivial)
        ⟨hstep ▸ deptStep_goodDept s m hg, by
          rw [hstep]
          exact ⟨[], rfl, by simp⟩⟩
      exact hinv.2
    · have hfind' : rest.find? isDoctorNameHeader = some m := by
        rw [List.find?_cons_of_neg rest hm] at hfind
        exact hfind
      have hstate : (deptStep s a).metricsHeader = none ∧ (deptStep s a).result = [] := by
        unfold deptStep
        split_ifs with h1 h3 h4 h5
        · exact ⟨hmh, hres⟩
        · exact ⟨hmh, hres⟩
        · exact ⟨hmh, hres⟩
        · exact ⟨hmh, hres⟩
        · exfalso
          apply h3
          rw [hmh]
          simp
      exact ih hfind' (deptStep s a) hstate.1 hstate.2 (deptStep_goodDept s a hg)

/- Preservation of the row-length invariant: when every metrics header in
   the table carries k labels and every row has length 1, k or k plus one,
   each emitted row has length exactly 4 plus k. -/
theorem deptStep_lenInv (k : Nat) (s : DeptState) (row : Row) (hrow : rowLenOK k row)
    (h : (∀ l, s.metricsHeader = some l → l.length = k) ∧
      ∀ r ∈ s.result, r.length = 4 + k) :
    (∀ l, (deptStep s row).metricsHeader = some l → l.length = k) ∧
      ∀ r ∈ (deptStep s row).result, r.length = 4 + k := by
  obtain ⟨hmh, hres⟩ := h
  obtain ⟨hopt, hmetr⟩ := hrow
  unfold deptStep
  split_ifs with h1 h2 h3 h4 h5
  · exact ⟨hmh, hres⟩
  · have hlen : row.length = k + 1 := hmetr h2
    constructor
    · intro l hl
      have hdl := Option.some.inj hl
      rw [← hdl, List.length_drop, hlen]
      omega
    · dsimp only
      split
      · intro r hr
        rcases List.mem_append.mp hr with hmem | hmem
        · exact hres r hmem
        · simp only [List.mem_singleton] at hmem
          subst hmem
          show (canonicalHeader (row.drop 1)).length = 4 + k
          unfold canonicalHeader
          rw [List.length_append, List.length_drop, hlen]
          simp
      · exact hres
  · exact ⟨hmh, hres⟩
  · exact ⟨hmh, hres⟩
  · exact ⟨hmh, hres⟩
  · refine ⟨hmh, ?_⟩
    dsimp only
    intro r hr
    rcases List.mem_append.mp hr with hmem | hmem
    · exact hres r hmem
    · simp only [List.mem_singleton] at hmem
      subst hmem
      simp only [Bool.not_eq_true, Bool.or_eq_false_iff] at h3
      obtain ⟨⟨hcd, hmhsome⟩, hlen2⟩ := h3
      have hge2 : 2 ≤ row.length := by
        rw [decide_eq_false_iff_not] at hlen2
        omega
      rcases hl : s.metricsHeader with _ | l
      · rw [hl] at hmhsome
        simp at hmhsome
      · have hlk : l.length = k := hmh l hl
        simp only [Option.getD_some]
        by_cases hcase : (row.length == l.length) = true
        · rw [if_pos hcase]
          have he : row.length = l.length := by
            rw [← beq_iff_eq (a := row.length) (b := l.length)]
            exact hcase
          show ((_ :: _ :: _ :: _ :: List.drop 1 ("" :: row)).length) = 4 + k
          simp only [List.length_cons]
          show row.length + 1 + 1 + 1 + 1 = 4 + k
          omega
        · rw [if_neg hcase]
          have hne : row.length ≠ l.length := by
            intro he
            exact hcase (beq_iff_eq.mpr he)
          show ((_ :: _ :: _ :: _ :: List.drop 1 row).length) = 4 + k
          simp only [List.length_cons, List.length_drop]
          rcases hopt with ho | ho | ho <;> omega

/-- C2: the CSV round-trip claim fails on the code: encoding the row
[a, b-comma-c, d-quote-e] with csvEscape and decoding with splitCsvLine
loses the internal double quote, because the splitter consumes every
unescaped quote while toggling its quote state, so the doubled quote of
the encoder never reaches cleanCellValue, whose quote un-doubling is
thereby dead for encoder output. The decoded third cell is de, not the
original. -/
theorem C2_csv_roundtrip_bug :
    encodeCsvRow ["a", "b,c", "d\"e"] = "a,\"b,c\",\"d\"\"e\"" ∧
    splitCsvLine (encodeCsvRow ["a", "b,c", "d\"e"]) = ["a", "b,c", "de"] ∧
    ["a", "b,c", "de"] ≠ ["a", "b,c", "d\"e"] := by
  refine ⟨by decide, by decide, by decide⟩

/-- C10: in department-grouped mode, when the grouped reduction emits no
rows at all, normalizeRows returns the original extracted row sequence
completely unchanged, including department headers, metrics headers and
totals rows. -/
theorem C10_empty_reduction_fallback (rows : List Row)
    (hmode : looksLikeDepartmentReport rows = true)
    (hempty : deptReduce rows = []) :
    normalizeRows rows = rows := by
  unfold normalizeRows
  rw [if_pos hmode]
  unfold normalizeDepartmentReport
  dsimp only
  rw [if_pos (by rw [show deptReduce rows = deptReduce rows from rfl, hempty]; rfl)]

/-- C10 witness: a table with a department header, a bare doctor-name
header and a totals row reduces to nothing and is returned unchanged. -/
theorem C10_witness :
    looksLikeDepartmentReport [["11 - Dermatology"], ["Doctor Name"], ["Totals", "9"]] = true ∧
    deptReduce [["11 - Dermatology"], ["Doctor Name"], ["Totals", "9"]] = [] ∧
    normalizeRows [["11 - Dermatology"], ["Doctor Name"], ["Totals", "9"]] =
      [["11 - Dermatology"], ["Doctor Name"], ["Totals", "9"]] :=
  ⟨by decide, by decide,
    C10_empty_reduction_fallback _ (by decide) (by decide)⟩

/-- C8 counterexample: the CLI conversion operation does not fail on an
input whose extraction yields zero rows; it warns and skips, returning
no output and no error, so the claim that every such conversion fails
with an ExtractionError is false for the CLI entry point. -/
theorem C8_counterexample :
    ¬ (∀ rows : List Row, rows = [] →
        ∃ e, convertHtmlToCsvCli rows = Except.error e) := by
  intro h
  obtain ⟨e, he⟩ := h [] rfl
  have hcli : convertHtmlToCsvCli [] = Except.ok none := rfl
  rw [hcli] at he
  exact Except.noConfusion he

/-- C8 (amended): when extraction yields zero rows, the form-server
conversion fails with the no-table-data error, while the CLI conversion
warns and skips, producing neither an output nor an error; in neither
path does conversion silently succeed with output. -/
theorem C8_extraction_failure (rows : List Row) (h : rows = []) :
    convertHtmlToCsvForm rows = Except.error "No table data detected" ∧
      convertHtmlToCsvCli rows = Except.ok none := by
  subst h
  exact ⟨rfl, rfl⟩

/-- C8 witness: both conversion paths evaluated at the empty extraction. -/
theorem C8_witness :
    ([] : List Row) = [] ∧
      convertHtmlToCsvForm [] = Except.error "No table data detected" ∧
      convertHtmlToCsvCli [] = Except.ok none :=
  ⟨rfl, (C8_extraction_failure [] rfl).1, (C8_extraction_failure [] rfl).2⟩

/-- C3 counterexample: a department-mode table whose reduction is empty is
returned unchanged by normalizeRows, so a row folding to the totals label
grand total appears in the output, refuting the claim for every input. -/
theorem C3_counterexample :
    looksLikeDepartmentReport [["10 - Cardiology"], ["Doctor Name"], ["Grand Total", "5"]] = true ∧
    normalizeRows [["10 - Cardiology"], ["Doctor Name"], ["Grand Total", "5"]] =
      [["10 - Cardiology"], ["Doctor Name"], ["Grand Total", "5"]] ∧
    isTotalsRow ["Grand Total", "5"] = true := by
  refine ⟨by decide, by decide, by decide⟩

/-- C3 (amended): no row whose first cell folds to a totals label appears
in the output of normalizeRows in pass-through mode, nor in
department-grouped mode provided the grouped reduction emits at least one
row; when the reduction is empty the original rows, totals included, are
returned (see C10). -/
theorem C3_totals_suppression :
    (∀ rows : List Row, looksLikeDepartmentReport rows = false →
      ∀ r ∈ normalizeRows rows, isTotalsRow r = false) ∧
    (∀ rows : List Row, looksLikeDepartmentReport rows = true → deptReduce rows ≠ [] →
      ∀ r ∈ normalizeRows rows, isTotalsRow r = false) := by
  constructor
  · intro rows hmode r hr
    unfold normalizeRows at hr
    rw [if_neg (by rw [hmode]; simp)] at hr
    have hmem := List.of_mem_filter hr
    simpa using hmem
  · intro rows hmode hne r hr
    unfold normalizeRows at hr
    rw [if_pos hmode] at hr
    unfold normalizeDepartmentReport at hr
    dsimp only at hr
    rw [if_neg (fun hI => hne (List.isEmpty_iff.mp hI))] at hr
    have hinv := deptFold_inv
      (I := fun st => goodDept st ∧ ∀ x ∈ st.result, isTotalsRow x = false)
      (P := fun _ => True)
      (fun st row _ hI => deptStep_noTotals st row hI)
      rows initDeptState (fun _ _ => trivial)
      ⟨fun dpt hd => Option.noConfusion hd, fun x hx => absurd hx (by simp [initDeptState])⟩
    exact hinv.2 r hr

/-- C3 witness: a department-mode table with a totals row and a real
doctor row; the reduction is nonempty and its data row is not a totals
row. -/
theorem C3_witness :
    looksLikeDepartmentReport
      [["10 - Cardiology"], ["Doctor Name", "Visits"], ["Grand Total", "5"], ["1 - Smith", "5"]] = true ∧
    deptReduce
      [["10 - Cardiology"], ["Doctor Name", "Visits"], ["Grand Total", "5"], ["1 - Smith", "5"]] ≠ [] ∧
    isTotalsRow ["10", "Cardiology", "1", "Smith", "5"] = false :=
  ⟨by decide, by decide,
    C3_totals_suppression.2
      [["10 - Cardiology"], ["Doctor Name", "Visits"], ["Grand Total", "5"], ["1 - Smith", "5"]]
      (by decide) (by decide) ["10", "Cardiology", "1", "Smith", "5"] (by decide)⟩

/-- C4 counterexample: in department-grouped mode a data row longer than
the metrics header emits a row longer than the canonical header (six
cells against five), refuting the post-normalization row-length
invariant as universally stated. -/
theorem C4_counterexample :
    looksLikeDepartmentReport
      [["10 - Cardiology"], ["Doctor Name", "Visits"], ["1 - Smith", "5", "7"]] = true ∧
    (normalizeRows
      [["10 - Cardiology"], ["Doctor Name", "Visits"], ["1 - Smith", "5", "7"]]).map List.length =
      [5, 6] ∧
    ¬ (∀ r ∈ normalizeRows [["10 - Cardiology"], ["Doctor Name", "Visits"], ["1 - Smith", "5", "7"]],
        r.length =
          ((normalizeRows [["10 - Cardiology"], ["Doctor Name", "Visits"],
            ["1 - Smith", "5", "7"]]).headD []).length) := by
  refine ⟨by decide, by decide, by decide⟩

/-- C4 (amended): the row-length invariant holds under the row-length
discipline the reducer relies on: if every metrics-header row of the
table carries exactly k metric labels and every row has length 1, k, or
k plus one, and the grouped reduction emits at least one row, then every
row of the normalized output, the canonical header included, has length
4 plus k. -/
theorem C4_row_length_invariant (rows : List Row) (k : Nat)
    (hrows : ∀ r ∈ rows, rowLenOK k r)
    (hmode : looksLikeDepartmentReport rows = true)
    (hne : deptReduce rows ≠ []) :
    ∀ r ∈ normalizeRows rows, r.length = 4 + k := by
  intro r hr
  unfold normalizeRows at hr
  rw [if_pos hmode] at hr
  unfold normalizeDepartmentReport at hr
  dsimp only at hr
  rw [if_neg (fun hI => hne (List.isEmpty_iff.mp hI))] at hr
  have hinv := deptFold_inv
    (I := fun st => (∀ l, st.metricsHeader = some l → l.length = k) ∧
      ∀ x ∈ st.result, x.length = 4 + k)
    (P := fun row => rowLenOK k row)
    (fun st row hP hI => deptStep_lenInv k st row hP hI)
    rows initDeptState hrows
    ⟨fun l hl => Option.noConfusion hl, fun x hx => absurd hx (by simp [initDeptState])⟩
  exact hinv.2 r hr

/-- C4 witness: a well-disciplined table with one metric label normalizes
to rows of uniform length five. -/
theorem C4_witness :
    (∀ r ∈ [["10 - Cardiology"], ["Doctor Name", "Visits"], ["1 - Smith", "5"]], rowLenOK 1 r) ∧
    looksLikeDepartmentReport [["10 - Cardiology"], ["Doctor Name", "Visits"], ["1 - Smith", "5"]] = true ∧
    deptReduce [["10 - Cardiology"], ["Doctor Name", "Visits"], ["1 - Smith", "5"]] ≠ [] ∧
    (["Department ID", "Department Name", "Doctor ID", "Doctor Name", "Visits"] : Row).length = 4 + 1 :=
  ⟨by decide, by decide, by decide,
    C4_row_length_invariant [["10 - Cardiology"], ["Doctor Name", "Visits"], ["1 - Smith", "5"]] 1
      (by decide) (by decide) (by decide)
      ["Department ID", "Department Name", "Doctor ID", "Doctor Name", "Visits"] (by decide)⟩

/-- C5 counterexample: when the first metrics-header row carries no
labels, the reducer emits a data row but never the canonical header, so
the canonical header is not emitted exactly once before data rows on
every input table. -/
theorem C5_counterexample :
    looksLikeDepartmentReport [["10 - Cardiology"], ["Doctor Name"], ["1 - Smith", "5"]] = true ∧
    normalizeRows [["10 - Cardiology"], ["Doctor Name"], ["1 - Smith", "5"]] =
      [["10", "Cardiology", "1", "Smith", "5"]] ∧
    (∀ r ∈ normalizeRows [["10 - Cardiology"], ["Doctor Name"], ["1 - Smith", "5"]],
      r.headD "" ≠ "Department ID") := by
  refine ⟨by decide, by decide, by decide⟩

/-- C5 (amended, plus the concrete example of the claim): in
department-grouped mode, whenever the first metrics-header row of the
table carries at least one label, the output starts with the canonical
header built from that row and the header occurs nowhere else in the
output; and the three-row example of the claim normalizes exactly as
stated. -/
theorem C5_canonical_header :
    (∀ (rows : List Row) (m : Row),
      looksLikeDepartmentReport rows = true →
      rows.find? isDoctorNameHeader = some m → 2 ≤ m.length →
      ∃ t, normalizeRows rows = canonicalHeader (m.drop 1) :: t ∧
        canonicalHeader (m.drop 1) ∉ t) ∧
    normalizeRows [["10 - Cardiology"], ["Doctor Name", "Visits"], ["1 - Smith", "5"]] =
      [["Department ID", "Department Name", "Doctor ID", "Doctor Name", "Visits"],
        ["10", "Cardiology", "1", "Smith", "5"]] := by
  constructor
  · intro rows m hmode hfind hlen
    obtain ⟨t, hres, ht⟩ := deptReduce_canon rows m hfind hlen initDeptState rfl rfl
      (fun dpt hd => Option.noConfusion hd)
    refine ⟨t, ?_, ?_⟩
    · unfold normalizeRows
      rw [if_pos hmode]
      unfold normalizeDepartmentReport
      dsimp only
      rw [if_neg ?hne]
      case hne =>
        intro hI
        have h0 : deptReduce rows = [] := List.isEmpty_iff.mp hI
        rw [show deptReduce rows = (rows.foldl deptStep initDeptState).result from rfl,
          hres] at h0
        exact List.noConfusion h0
      exact hres
    · intro hmem
      obtain ⟨x, rest', hx, hgood⟩ := ht _ hmem
      have hhead : x = "Department ID" := by
        have hh := congrArg (fun l : Row => l.headD "") hx
        dsimp only at hh
        rw [show (canonicalHeader (m.drop 1)).headD "" = "Department ID" from rfl] at hh
        rw [show (x :: rest').headD "" = x from rfl] at hh
        exact hh.symm
      exact (digitsOrUnknown_ne_deptId x hgood) hhead
  · decide

/-- C5 witness: the amended statement applied to the example table of the
claim. -/
theorem C5_witness :
    ∃ t, normalizeRows [["10 - Cardiology"], ["Doctor Name", "Visits"], ["1 - Smith", "5"]] =
        canonicalHeader ["Visits"] :: t ∧
      canonicalHeader ["Visits"] ∉ t :=
  C5_canonical_header.1 [["10 - Cardiology"], ["Doctor Name", "Visits"], ["1 - Smith", "5"]]
    ["Doctor Name", "Visits"] (by decide) (by decide) (by decide)

/-- C6: parseLabelWithFallback implements exactly the five-case contract
of the claim: a value matching the digits-dash-text pattern yields those
digits and the trimmed text with an Unknown fallback for an empty name;
otherwise an input that trims to nothing, or to one of the literal
tokens unknown, null, undefined, yields the Unknown pair; a bare digit
string yields that number with an Unknown name; any other text yields
Unknown with that text; and neither field is ever the empty string. -/
theorem C6_identifier_parsing (v : String) :
    (parseLabelWithFallback v).id ≠ "" ∧
    (parseLabelWithFallback v).name ≠ "" ∧
    (∀ i n, parseIdAndName v = some ⟨i, n⟩ →
      parseLabelWithFallback v = ⟨i, if n = "" then UNKNOWN_LABEL else n⟩) ∧
    (parseIdAndName v = none → jsTrim v = "" →
      parseLabelWithFallback v = ⟨UNKNOWN_LABEL, UNKNOWN_LABEL⟩) ∧
    (parseIdAndName v = none →
      (asciiLower (jsTrim v) = "unknown" ∨ asciiLower (jsTrim v) = "null" ∨
        asciiLower (jsTrim v) = "undefined") →
      parseLabelWithFallback v = ⟨UNKNOWN_LABEL, UNKNOWN_LABEL⟩) ∧
    (parseIdAndName v = none → asciiLower (jsTrim v) ≠ "unknown" →
      asciiLower (jsTrim v) ≠ "null" → asciiLower (jsTrim v) ≠ "undefined" →
      isDigitsStr (jsTrim v) = true →
      parseLabelWithFallback v = ⟨jsTrim v, UNKNOWN_LABEL⟩) ∧
    (parseIdAndName v = none → jsTrim v ≠ "" → asciiLower (jsTrim v) ≠ "unknown" →
      asciiLower (jsTrim v) ≠ "null" → asciiLower (jsTrim v) ≠ "undefined" →
      isDigitsStr (jsTrim v) = false →
      parseLabelWithFallback v = ⟨UNKNOWN_LABEL, jsTrim v⟩) := by
  refine ⟨?_, ?_, ?_, ?_, ?_, ?_, ?_⟩
  · rcases label_id_shape v with h | h
    · rw [h]
      decide
    · exact h.1
  · unfold parseLabelWithFallback
    cases hp : parseIdAndName v with
    | some parsed =>
      dsimp only
      by_cases hn : parsed.name = ""
      · rw [if_pos hn]
        decide
      · rw [if_neg hn]
        exact hn
    | none =>
      dsimp only
      split_ifs with h1 h2 h3
      · decide
      · decide
      · show UNKNOWN_LABEL ≠ ""
        decide
      · exact h1
  · intro i n hp
    unfold parseLabelWithFallback
    rw [hp]
    dsimp only
    obtain ⟨hne, _⟩ := parseIdAndName_some v ⟨i, n⟩ hp
    rw [if_neg hne]
  · intro hp he
    unfold parseLabelWithFallback
    rw [hp]
    dsimp only
    rw [if_pos he]
  · intro hp hlit
    unfold parseLabelWithFallback
    rw [hp]
    dsimp only
    have hne : jsTrim v ≠ "" := by
      intro h0
      rw [h0] at hlit
      rcases hlit with h | h | h <;> exact absurd h (by decide)
    rw [if_neg hne, if_pos (by rcases hlit with h | h | h <;> simp [h])]
  · intro hp h1 h2 h3 hdig
    unfold parseLabelWithFallback
    rw [hp]
    dsimp only
    have hne : jsTrim v ≠ "" := by
      intro h0
      rw [h0] at hdig
      exact absurd hdig (by decide)
    rw [if_neg hne, if_neg (by simp [h1, h2, h3]), if_pos hdig]
  · intro hp hne h1 h2 h3 hdig
    unfold parseLabelWithFallback
    rw [hp]
    dsimp only
    rw [if_neg hne, if_neg (by simp [h1, h2, h3]), if_neg (by simp [hdig])]

/-- C6 witness: the digits-dash-text case applied at a concrete label. -/
theorem C6_witness :
    parseIdAndName "12 - Bob" = some ⟨"12", "Bob"⟩ ∧
    parseLabelWithFallback "12 - Bob" = ⟨"12", "Bob"⟩ := by
  refine ⟨by decide, ?_⟩
  have h := (C6_identifier_parsing "12 - Bob").2.2.1 "12" "Bob" (by decide)
  simpa using h

/- Helper lemmas: the ISO-like match of normalizePeriod. -/

theorem isoParse_month_spec (t y m : String) (h : isoParse t = some (y, m, none)) :
    t ≠ "" ∧ y ++ "-" ++ m = t ∧ isSerialString t = false := by
  unfold isoParse at h
  split at h
  · rename_i y1 y2 y3 y4 m1 m2 heq
    split at h
    · rename_i hall
      have hinj := Option.some.inj h
      simp only [Prod.mk.injEq] at hinj
      obtain ⟨hy, hm, -⟩ := hinj
      subst hy
      subst hm
      refine ⟨?_, ?_, ?_⟩
      · intro h0
        rw [h0] at heq
        exact List.noConfusion heq
      · apply String.ext
        simp only [String.data_append, heq]
        rfl
      · unfold isSerialString
        rw [heq]
        simp only [List.all_cons, List.all_nil, Bool.and_eq_true, and_true] at hall
        obtain ⟨hy1, hy2, hy3, hy4, hm1, hm2⟩ := hall
        dsimp only
        rw [List.takeWhile_cons, if_pos hy1, List.takeWhile_cons, if_pos hy2,
          List.takeWhile_cons, if_pos hy3, List.takeWhile_cons, if_pos hy4,
          List.takeWhile_cons, if_neg (by decide)]
        simp [isSerialSuffix]
    · exact absurd h (by simp)
  · rename_i y1 y2 y3 y4 m1 m2 d1 d2 heq
    split at h
    · have hinj := Option.some.inj h
      simp only [Prod.mk.injEq] at hinj
      exact absurd hinj.2.2 (by simp)
    · exact absurd h (by simp)
  · exact absurd h (by simp)

theorem isoParse_full_spec (t y m d : String) (h : isoParse t = some (y, m, some d)) :
    t ≠ "" ∧ y ++ "-" ++ m ++ "-" ++ d = t ∧ isSerialString t = false := by
  unfold isoParse at h
  split at h
  · rename_i y1 y2 y3 y4 m1 m2 heq
    split at h
    · have hinj := Option.some.inj h
      simp only [Prod.mk.injEq] at hinj
      exact absurd hinj.2.2 (by simp)
    · exact absurd h (by simp)
  · rename_i y1 y2 y3 y4 m1 m2 d1 d2 heq
    split at h
    · rename_i hall
      have hinj := Option.some.inj h
      simp only [Prod.mk.injEq, Option.some.injEq] at hinj
      obtain ⟨hy, hm, hd⟩ := hinj
      subst hy
      subst hm
      subst hd
      refine ⟨?_, ?_, ?_⟩
      · intro h0
        rw [h0] at heq
        exact List.noConfusion heq
      · apply String.ext
        simp only [String.data_append, heq]
        rfl
      · unfold isSerialString
        rw [heq]
        simp only [List.all_cons, List.all_nil, Bool.and_eq_true, and_true] at hall
        obtain ⟨hy1, hy2, hy3, hy4, hm1, hm2, hd1, hd2⟩ := hall
        dsimp only
        rw [List.takeWhile_cons, if_pos hy1, List.takeWhile_cons, if_pos hy2,
          List.takeWhile_cons, if_pos hy3, List.takeWhile_cons, if_pos hy4,
          List.takeWhile_cons, if_neg (by decide)]
        simp [isSerialSuffix]
    · exact absurd h (by simp)
  · exact absurd h (by simp)

theorem isSerialString_ne_empty (t : String) (h : isSerialString t = true) : t ≠ "" := by
  intro h0
  rw [h0] at h
  exact absurd h (by decide)

theorem append_dash01 (x : String) : x ++ "-01" = x ++ "-" ++ "01" := by
  apply String.ext
  rw [String.data_append, String.data_append, String.data_append, List.append_assoc]
  rfl

/-- C7 (amended): normalizePeriod maps a year-month input to that month
with day 01 appended, passes a full year-month-day input through
unchanged, converts a pure-integer input whose day count lies within the
Date range (at most 100025569 days from the 1899-12-30 epoch) to the ISO
date epoch plus that many days, by day-by-day Gregorian addition; a
pure-integer input past the Date range renders the invalid date
NaN-NaN-NaN; any other input passes through verbatim after trimming,
and an input that trims to nothing yields the empty string. -/
theorem C7_normalize_period (s : String) :
    (jsTrim s = "" → normalizePeriod s = "") ∧
    (∀ y m, isoParse (jsTrim s) = some (y, m, none) →
      normalizePeriod s = jsTrim s ++ "-01") ∧
    (∀ y m d, isoParse (jsTrim s) = some (y, m, some d) →
      normalizePeriod s = jsTrim s) ∧
    (isSerialString (jsTrim s) = true →
      natOfDigits ((jsTrim s).data.takeWhile jsIsDigit) ≤ excelSerialMax →
      normalizePeriod s =
        renderIsoDate (addDaysIter (natOfDigits ((jsTrim s).data.takeWhile jsIsDigit))
          excelEpoch)) ∧
    (isSerialString (jsTrim s) = true →
      excelSerialMax < natOfDigits ((jsTrim s).data.takeWhile jsIsDigit) →
      normalizePeriod s = "NaN-NaN-NaN") ∧
    (jsTrim s ≠ "" → isSerialString (jsTrim s) = false → isoParse (jsTrim s) = none →
      normalizePeriod s = jsTrim s) := by
  refine ⟨?_, ?_, ?_, ?_, ?_, ?_⟩
  · intro he
    unfold normalizePeriod
    rw [if_pos he]
  · intro y m hiso
    obtain ⟨hne, hrec, hser⟩ := isoParse_month_spec _ y m hiso
    unfold normalizePeriod
    dsimp only
    rw [if_neg hne, if_neg (by rw [hser]; simp), hiso, ← hrec, append_dash01]
    rfl
  · intro y m d hiso
    obtain ⟨hne, hrec, hser⟩ := isoParse_full_spec _ y m d hiso
    unfold normalizePeriod
    dsimp only
    rw [if_neg hne, if_neg (by rw [hser]; simp), hiso]
    exact hrec
  · intro hser hbound
    unfold normalizePeriod
    dsimp only
    rw [if_neg (isSerialString_ne_empty _ hser), if_pos hser]
    exact excelSerialToIsoDate_iter _ hbound
  · intro hser hbound
    unfold normalizePeriod
    dsimp only
    rw [if_neg (isSerialString_ne_empty _ hser), if_pos hser]
    exact excelSerialToIsoDate_overflow _ hbound
  · intro hne hser hiso
    unfold normalizePeriod
    dsimp only
    rw [if_neg hne, if_neg (by rw [hser]; simp), hiso]

/-- C7 counterexample: the pure-integer input 200000000 is a serial past
the Date range, so the program renders the invalid date NaN-NaN-NaN,
which is not a year-month-day ISO form, refuting the unqualified claim
that every pure-integer input converts to the ISO date epoch plus that
many days. -/
theorem C7_counterexample :
    isSerialString (jsTrim "200000000") = true ∧
    normalizePeriod "200000000" = "NaN-NaN-NaN" ∧
    isoParse "NaN-NaN-NaN" = none := by
  refine ⟨by decide, by decide, by decide⟩

set_option maxRecDepth 8000 in
/-- C7 witness: the month example and the serial example of the claim,
with the serial evaluated to the concrete date 2025-08-01, equal to
1899-12-30 plus 45870 days, and an out-of-range serial rendering the
invalid date. -/
theorem C7_witness :
    (isoParse (jsTrim "2025-08") = some ("2025", "08", none) ∧
      normalizePeriod "2025-08" = jsTrim "2025-08" ++ "-01") ∧
    (isSerialString (jsTrim "45870") = true ∧
      natOfDigits ((jsTrim "45870").data.takeWhile jsIsDigit) ≤ excelSerialMax ∧
      normalizePeriod "45870" =
        renderIsoDate (addDaysIter (natOfDigits ((jsTrim "45870").data.takeWhile jsIsDigit))
          excelEpoch)) ∧
    normalizePeriod "200000000" = "NaN-NaN-NaN" ∧
    normalizePeriod "45870" = "2025-08-01" ∧
    normalizePeriod "2025-08" = "2025-08-01" :=
  ⟨⟨by decide, (C7_normalize_period "2025-08").2.1 "2025" "08" (by decide)⟩,
   ⟨by decide, by decide, (C7_normalize_period "45870").2.2.2.1 (by decide) (by decide)⟩,
   (C7_normalize_period "200000000").2.2.2.2.1 (by decide) (by decide),
   by decide, by decide⟩

/-- C9: when the remote read during the upsert pre-delete step fails, an
error of the not-found or bad-range class (code 400 or 404) is treated
as no existing rows to delete and the push continues to the append
phase against an empty destination, while any other error code
propagates and aborts the push before anything is appended; the model
performs the single read of the source, with no retry. -/
theorem C9_predelete_error_classification (e : Nat) (rows : List Row) (d : String)
    (hd : pushTargetDate rows = JsVal.jsStr d) (hne : d ≠ "")
    (hdi : (pushDateIndex rows).isSome = true) (hrows : rows ≠ []) :
    ((e = 400 ∨ e = 404) →
      pushToSheetE (Except.error e) rows = Except.ok (appendPhase [] rows)) ∧
    (e ≠ 400 → e ≠ 404 → pushToSheetE (Except.error e) rows = Except.error e) := by
  obtain ⟨di, hdi'⟩ := Option.isSome_iff_exists.mp hdi
  constructor
  · intro he
    unfold pushToSheetE
    rw [if_neg (fun hI => hrows (List.isEmpty_iff.mp hI))]
    dsimp only
    rw [hdi', hd]
    dsimp only
    rw [if_pos (bne_iff_ne.mpr hne)]
    unfold removeRowsForDateE
    rcases he with he | he <;> subst he <;> simp
  · intro h1 h2
    unfold pushToSheetE
    rw [if_neg (fun hI => hrows (List.isEmpty_iff.mp hI))]
    dsimp only
    rw [hdi', hd]
    dsimp only
    rw [if_pos (bne_iff_ne.mpr hne)]
    unfold removeRowsForDateE
    have hb : (e == 400 || e == 404) = false := by
      rw [beq_eq_false_iff_ne.mpr h1, beq_eq_false_iff_ne.mpr h2]
      rfl
    dsimp only
    rw [hb]
    simp [hb]

/-- C9 witness: code 404 continues with the full write, code 500 aborts. -/
theorem C9_witness :
    pushToSheetE (Except.error 404) [["Date", "Clinic"], ["2025-08-01", "Q"]] =
      Except.ok (appendPhase [] [["Date", "Clinic"], ["2025-08-01", "Q"]]) ∧
    pushToSheetE (Except.error 500) [["Date", "Clinic"], ["2025-08-01", "Q"]] =
      Except.error 500 :=
  ⟨(C9_predelete_error_classification 404 [["Date", "Clinic"], ["2025-08-01", "Q"]]
      "2025-08-01" (by decide) (by decide) (by decide) (by decide)).1 (Or.inr rfl),
   (C9_predelete_error_classification 500 [["Date", "Clinic"], ["2025-08-01", "Q"]]
      "2025-08-01" (by decide) (by decide) (by decide) (by decide)).2
      (by decide) (by decide)⟩

/- Helper lemma for the upsert theorem: when every data row of the
destination carries the target date and the target clinic, the
pre-delete pass removes them all and rewrites the tab as just its
header. -/
theorem removeRowsForDate_all_match (header : Row) (data : List Row) (di ci : Nat)
    (d c : String)
    (hdi : findColumnIndex header "date" = some di)
    (hci : findColumnIndex header "clinic" = some ci)
    (hd : ∀ r ∈ data, r.get? di = some d)
    (hc : ∀ r ∈ data, r.get? ci = some c)
    (hne : data ≠ []) :
    removeRowsForDate (header :: data) d (JsVal.jsStr c) = [header] := by
  unfold removeRowsForDate removeRowsCore
  rw [if_neg (by simp)]
  dsimp only
  rw [show (header :: data).headD [] = header from rfl, hdi]
  dsimp only
  rw [if_pos (show (JsVal.jsStr c != JsVal.jsNull) = true from by simp), hci]
  dsimp only
  rw [show (header :: data).drop 1 = data from rfl]
  rw [List.filter_eq_nil_iff.mpr ?hall]
  case hall =>
    intro r hr
    have hrd := hd r hr
    have hrc := hc r hr
    rw [List.get?_eq_getElem?] at hrd hrc
    simp [List.getD, hrd, hrc, jsValEqStr]
  rw [if_neg (by
    simp only [List.length_nil, List.length_cons, beq_iff_eq]
    intro h0
    exact hne (List.length_eq_zero.mp (by omega)))]

/-- C1: the sync push is idempotent per date and clinic key: for a
dataset whose header has Date and Clinic columns and whose data rows all
carry the single nonempty date d and the single clinic c, pushing into
an empty destination and then pushing the same dataset again leaves the
destination equal to exactly the one header row plus the dataset data
rows, not twice them. -/
theorem C1_idempotent_upsert (header : Row) (data : List Row) (di ci : Nat) (d c : String)
    (hdi : findColumnIndex header "date" = some di)
    (hci : findColumnIndex header "clinic" = some ci)
    (hd : ∀ r ∈ data, r.get? di = some d)
    (hc : ∀ r ∈ data, r.get? ci = some c)
    (hdne : d ≠ "") :
    pushToSheet (pushToSheet [] (header :: data)) (header :: data) = header :: data ∧
    (pushToSheet (pushToSheet [] (header :: data)) (header :: data)).length =
      1 + data.length := by
  have hpdi : pushDateIndex (header :: data) = some di := by
    unfold pushDateIndex
    exact hdi
  have hpci : pushClinicIndex (header :: data) = some ci := by
    unfold pushClinicIndex
    exact hci
  have hmain : pushToSheet (pushToSheet [] (header :: data)) (header :: data) =
      header :: data := by
    cases data with
    | nil =>
      have htd : pushTargetDate [header] = JsVal.jsNull := by
        unfold pushTargetDate
        rw [hpdi]
        dsimp only
        rw [if_neg (by simp)]
      have hrun1 : pushToSheet [] [header] = [header] := by
        unfold pushToSheet
        rw [if_neg (by simp)]
        dsimp only
        rw [hpdi, htd]
        dsimp only
        unfold appendPhase
        simp
      rw [hrun1]
      unfold pushToSheet
      rw [if_neg (by simp)]
      dsimp only
      rw [hpdi, htd]
      dsimp only
      unfold appendPhase
      simp
    | cons r0 rest =>
      have hr0d : r0.get? di = some d := hd r0 (List.mem_cons_self r0 rest)
      have hr0c : r0.get? ci = some c := hc r0 (List.mem_cons_self r0 rest)
      have hlen : 1 < (header :: r0 :: rest).length := by simp
      have hget1 : (header :: r0 :: rest).getD 1 [] = r0 := rfl
      have htd : pushTargetDate (header :: r0 :: rest) = JsVal.jsStr d := by
        unfold pushTargetDate
        rw [hpdi]
        dsimp only
        rw [if_pos hlen, hget1, hr0d]
        rfl
      have htc : pushTargetClinic (header :: r0 :: rest) = JsVal.jsStr c := by
        unfold pushTargetClinic
        rw [hpci]
        dsimp only
        rw [if_pos hlen, hget1, hr0c]
        rfl
      have hdb : (d != "") = true := bne_iff_ne.mpr hdne
      have hrun1 : pushToSheet [] (header :: r0 :: rest) = header :: r0 :: rest := by
        unfold pushToSheet
        rw [if_neg (by simp)]
        dsimp only
        rw [hpdi, htd]
        dsimp only
        rw [if_pos hdb]
        rw [show removeRowsForDate [] d (pushTargetClinic (header :: r0 :: rest)) = []
          from rfl]
        unfold appendPhase
        simp
      rw [hrun1]
      unfold pushToSheet
      rw [if_neg (by simp)]
      dsimp only
      rw [hpdi, htd]
      dsimp only
      rw [if_pos hdb, htc]
      rw [removeRowsForDate_all_match header (r0 :: rest) di ci d c hdi hci hd hc
        (by simp)]
      unfold appendPhase
      simp
  refine ⟨hmain, ?_⟩
  rw [hmain]
  simp [List.length_cons]
  omega

/-- C1 witness: a one-row dataset for date 2025-08-01 and clinic
Qurtubah pushed twice into an empty destination ends as one header row
plus its single data row. -/
theorem C1_witness :
    findColumnIndex ["Date", "Clinic", "X"] "date" = some 0 ∧
    findColumnIndex ["Date", "Clinic", "X"] "clinic" = some 1 ∧
    pushToSheet
      (pushToSheet [] [["Date", "Clinic", "X"], ["2025-08-01", "Qurtubah", "5"]])
      [["Date", "Clinic", "X"], ["2025-08-01", "Qurtubah", "5"]] =
      [["Date", "Clinic", "X"], ["2025-08-01", "Qurtubah", "5"]] :=
  ⟨by decide, by decide,
    (C1_idempotent_upsert ["Date", "Clinic", "X"] [["2025-08-01", "Qurtubah", "5"]] 0 1
      "2025-08-01" "Qurtubah" (by decide) (by decide) (by decide) (by decide)
      (by decide)).1⟩
